import Mathlib

/-!
Verification of the SecRev file-selection and chunking pipeline
(`secrev_cli.py`) through a shallow embedding in Lean 4.

Python strings are modelled as Lean `String` (or `List Char` for file
contents), with the relevant Python primitives (`str.strip`, `str.lower`,
`str.split`, `pathlib.Path.suffix`, substring containment, `int(...)`
parsing) transcribed as executable functions below.  Each definition is
named after the source function it embeds.
-/

namespace SecRev

set_option maxRecDepth 10000

/-- Python whitespace characters recognised by `str.strip()` / `str.split()`
(ASCII subset: space, tab, LF, CR, vertical tab, form feed). -/
def pyIsSpace (c : Char) : Bool :=
  c == ' ' || c == '\t' || c == '\n' || c == '\r' || c == '\u000B' || c == '\u000C'

/-- ASCII lowercasing of one character, as `str.lower()` acts on the
characters appearing in this program. -/
def lowerCh (c : Char) : Char :=
  if 'A' ≤ c ∧ c ≤ 'Z' then Char.ofNat (c.toNat + 32) else c

/-- `s.lower()`. -/
def pyLower (s : String) : String := String.mk (s.toList.map lowerCh)

/-- Remove the characters satisfying `p` from both ends of a list
(the behaviour of Python `str.strip(chars)`). -/
def stripEnds (p : Char → Bool) (cs : List Char) : List Char :=
  ((cs.dropWhile p).reverse.dropWhile p).reverse

/-- `s.strip()` (strip whitespace from both ends). -/
def pyStrip (s : String) : String := String.mk (stripEnds pyIsSpace s.toList)

/-- `s.strip('.')` (strip dots from both ends). -/
def pyStripDots (s : String) : String :=
  String.mk (stripEnds (fun c => c == '.') s.toList)

/-- Leading-match test on character lists: does `pat` occur at the head
of `s`?  Used for Python `str.startswith` and substring search. -/
def leadMatch : List Char → List Char → Bool
  | [], _ => true
  | _ :: _, [] => false
  | a :: as, b :: bs => a == b && leadMatch as bs

/-- `s.startswith(pat)`. -/
def pyStartsWith (pat s : String) : Bool := leadMatch pat.toList s.toList

/-- Substring search on character lists (Python `pat in s`). -/
def hasSubL (pat : List Char) : List Char → Bool
  | [] => pat.isEmpty
  | c :: rest => leadMatch pat (c :: rest) || hasSubL pat rest

/-- Python substring containment `pat in s`. -/
def strHasSub (pat s : String) : Bool := hasSubL pat.toList s.toList

/-- `s.split()`: split on whitespace runs, dropping empty tokens.
`acc` holds the characters of the current token in reverse. -/
def splitGo (acc : List Char) : List Char → List String
  | [] => if acc.isEmpty then [] else [String.mk acc.reverse]
  | c :: rest =>
      if pyIsSpace c then
        if acc.isEmpty then splitGo [] rest
        else String.mk acc.reverse :: splitGo [] rest
      else splitGo (c :: acc) rest

/-- Python `s.split()` with no separator argument. -/
def pySplit (s : String) : List String := splitGo [] s.toList

/-- `pathlib.Path(name).suffix`: the final extension of a file name
(`name[i:]` for the last dot index `i` with `0 < i < len(name) - 1`,
otherwise the empty string). -/
def pySuffix (s : String) : String :=
  let cs := s.toList
  let idxs := (cs.enum.filter (fun pr => pr.2 == '.')).map (fun pr => pr.1)
  match idxs.getLast? with
  | none => ""
  | some i => if 0 < i ∧ i < cs.length - 1 then String.mk (cs.drop i) else ""

/-- `not content.strip()`: the content is empty or whitespace-only. -/
def pyIsBlankL (cs : List Char) : Bool := cs.all pyIsSpace

/-- `_normalize_extensions` (secrev_cli.py lines 71-74):
`{f".{e.strip('.').lower()}" if e.strip() else "" for e in extensions} - {""}`,
modelled as a list whose membership agrees with the Python set. -/
def pyNormalizeExtensions (exts : List String) : List String :=
  (exts.map (fun e =>
      if pyStrip e != "" then "." ++ pyLower (pyStripDots e) else "")).filter
    (fun s => s != "")

/-- `chunk_content`, inner list comprehension
`[content[i:i+n] for i in range(0, len(content), n)]`, with `fuel`
bounding the recursion depth (any `fuel ≥ content.length` is exact). -/
def chunkGo : Nat → List Char → Nat → List (List Char)
  | _, [], _ => []
  | 0, _ :: _, _ => []
  | fuel + 1, c :: cs, n => (c :: cs).take n :: chunkGo fuel ((c :: cs).drop n) n

/-- `chunk_content(content, chunk_size_chars)` (secrev_cli.py lines 311-314). -/
def chunk_content (content : List Char) (chunk_size_chars : Int) : List (List Char) :=
  if chunk_size_chars ≤ 0 then [content]
  else chunkGo content.length content chunk_size_chars.toNat

theorem chunkGo_join (fuel : Nat) : ∀ (s : List Char) (n : Nat),
    1 ≤ n → s.length ≤ fuel → (chunkGo fuel s n).flatten = s := by
  induction fuel with
  | zero =>
    intro s n _ hle
    cases s with
    | nil => rfl
    | cons c cs => simp at hle
  | succ fuel ih =>
    intro s n hn hle
    cases s with
    | nil => rfl
    | cons c cs =>
      have hdrop : ((c :: cs).drop n).length ≤ fuel := by
        simp only [List.length_drop, List.length_cons] at *
        omega
      simp only [chunkGo, List.flatten_cons, ih _ n hn hdrop, List.take_append_drop]

theorem chunkGo_length (fuel : Nat) : ∀ (s : List Char) (n : Nat),
    1 ≤ n → s.length ≤ fuel →
    (chunkGo fuel s n).length = (s.length + n - 1) / n := by
  induction fuel with
  | zero =>
    intro s n hn hle
    cases s with
    | nil =>
      simp only [chunkGo, List.length_nil, Nat.zero_add]
      exact (Nat.div_eq_of_lt (by omega)).symm
    | cons c cs => simp at hle
  | succ fuel ih =>
    intro s n hn hle
    cases s with
    | nil =>
      simp only [chunkGo, List.length_nil, Nat.zero_add]
      exact (Nat.div_eq_of_lt (by omega)).symm
    | cons c cs =>
      have hdrop : ((c :: cs).drop n).length ≤ fuel := by
        simp only [List.length_drop, List.length_cons] at *
        omega
      have hrec := ih ((c :: cs).drop n) n hn hdrop
      simp only [chunkGo, List.length_cons, hrec, List.length_drop] at *
      rcases le_or_lt (cs.length + 1) n with hcase | hcase
      · have h1 : cs.length + 1 - n = 0 := by omega
        have h2 : (0 + n - 1) / n = 0 := Nat.div_eq_of_lt (by omega)
        have h3 : cs.length + 1 + n - 1 = cs.length + n := by omega
        rw [h1, h2, h3, Nat.add_div_right _ (by omega : 0 < n)]
        have h5 : cs.length / n = 0 := Nat.div_eq_of_lt (by omega)
        omega
      · have h1 : cs.length + 1 - n + n - 1 = cs.length := by omega
        have h2 : cs.length + 1 + n - 1 = cs.length + n := by omega
        rw [h1, h2, Nat.add_div_right _ (by omega : 0 < n)]

theorem chunkGo_ne_nil (fuel : Nat) (s : List Char) (n : Nat)
    (hf : 1 ≤ fuel) (hs : s ≠ []) : chunkGo fuel s n ≠ [] := by
  cases fuel with
  | zero => omega
  | succ fuel =>
    cases s with
    | nil => exact absurd rfl hs
    | cons c cs => simp [chunkGo]

theorem chunkGo_dropLast (fuel : Nat) : ∀ (s : List Char) (n : Nat),
    1 ≤ n → s.length ≤ fuel →
    ∀ c ∈ (chunkGo fuel s n).dropLast, c.length = n := by
  induction fuel with
  | zero =>
    intro s n _ hle c hc
    cases s with
    | nil => simp [chunkGo] at hc
    | cons a as => simp at hle
  | succ fuel ih =>
    intro s n hn hle c hc
    cases s with
    | nil => simp [chunkGo] at hc
    | cons a as =>
      by_cases hdrop : (a :: as).drop n = []
      · simp [chunkGo, hdrop] at hc
      · have hlen : ((a :: as).drop n).length ≤ fuel := by
          simp only [List.length_drop, List.length_cons] at *
          omega
        have hfuel : 1 ≤ fuel := by
          have : 0 < ((a :: as).drop n).length := List.length_pos.mpr hdrop
          omega
        have hrest : chunkGo fuel ((a :: as).drop n) n ≠ [] :=
          chunkGo_ne_nil fuel _ n hfuel hdrop
        rw [chunkGo, List.dropLast_cons_of_ne_nil hrest] at hc
        rcases List.mem_cons.mp hc with h | h
        · subst h
          have hcontra : ¬ (a :: as).length ≤ n :=
            fun hle2 => hdrop (List.drop_eq_nil_of_le hle2)
          simp only [List.length_take, List.length_cons] at *
          omega
        · exact ih _ n hn hlen c h

/-- C3: for every content string C and positive size S, the chunks of
`chunk_content(C, S)` concatenate back to C, every chunk except possibly
the last has length exactly S, and the chunk count is `ceil(len(C)/S)`
(computed as `(len(C) + S - 1) / S`); for S ≤ 0 the result is the single
chunk `[C]`. -/
theorem chunk_content_spec (C : List Char) (S : Int) :
    (0 < S →
      (chunk_content C S).flatten = C ∧
      (∀ c ∈ (chunk_content C S).dropLast, c.length = S.toNat) ∧
      (chunk_content C S).length = (C.length + S.toNat - 1) / S.toNat) ∧
    (S ≤ 0 → chunk_content C S = [C]) := by
  constructor
  · intro hS
    have hn : 1 ≤ S.toNat := by omega
    have hnot : ¬ S ≤ 0 := by omega
    rw [chunk_content, if_neg hnot]
    exact ⟨chunkGo_join C.length C S.toNat hn le_rfl,
      chunkGo_dropLast C.length C S.toNat hn le_rfl,
      chunkGo_length C.length C S.toNat hn le_rfl⟩
  · intro hS
    rw [chunk_content, if_pos hS]

/-- Witness for C3 at C = "abcde", S = 2: chunks are "ab", "cd", "e". -/
theorem chunk_content_spec_witness :
    (chunk_content ['a', 'b', 'c', 'd', 'e'] 2).flatten = ['a', 'b', 'c', 'd', 'e'] ∧
    (∀ c ∈ (chunk_content ['a', 'b', 'c', 'd', 'e'] 2).dropLast,
        c.length = (2 : Int).toNat) ∧
    (chunk_content ['a', 'b', 'c', 'd', 'e'] 2).length =
      (['a', 'b', 'c', 'd', 'e'].length + (2 : Int).toNat - 1) / (2 : Int).toNat :=
  (chunk_content_spec ['a', 'b', 'c', 'd', 'e'] 2).1 (by decide)

/-!
Budget enforcement of the driver loop (`main`, secrev_cli.py lines 478-524),
restricted to the state that determines which chunks are sent: the running
character total and the list of chunk texts forwarded to the analysis
collaborator.  File read errors are outside the model (contents are given
directly); appending findings does not influence sending decisions.
-/

/-- The budget test shared by the per-file pre-check (line 495) and the
per-chunk check (line 505):
`max_total_chars > 0 and total + length > max_total_chars and total < max_total_chars`. -/
def budgetSkipCheck (maxT : Int) (total len : Nat) : Bool :=
  decide (0 < maxT) && decide (maxT < (total : Int) + len) && decide ((total : Int) < maxT)

/-- The inner chunk loop of `main` (lines 501-522): returns the chunks sent
to the collaborator (in order) and the updated running total. -/
def processChunksGo (maxT : Int) : Nat → List (List Char) → List (List Char) × Nat
  | total, [] => ([], total)
  | total, c :: rest =>
      if pyIsBlankL c then processChunksGo maxT total rest
      else if budgetSkipCheck maxT total c.length then ([], total)
      else
        let total1 := total + c.length
        if 0 < maxT ∧ (maxT : Int) ≤ total1 then ([c], total1)
        else
          let res := processChunksGo maxT total1 rest
          (c :: res.1, res.2)

/-- The outer file loop of `main` (lines 478-524): returns the chunks sent
across all files and the final running total. -/
def processFilesGo (maxT chunkSize : Int) : Nat → List (List Char) → List (List Char) × Nat
  | total, [] => ([], total)
  | total, content :: rest =>
      if pyIsBlankL content then processFilesGo maxT chunkSize total rest
      else if budgetSkipCheck maxT total content.length then
        processFilesGo maxT chunkSize total rest
      else
        let res := processChunksGo maxT total (chunk_content content chunkSize)
        if 0 < maxT ∧ (maxT : Int) ≤ res.2 then res
        else
          let res2 := processFilesGo maxT chunkSize res.2 rest
          (res.1 ++ res2.1, res2.2)

/-- Entry point of the modelled driver loop: scan the given file contents
with budget `maxT` (0 or negative = unlimited) and chunk size `chunkSize`,
starting from a zero running total. -/
def processFiles (maxT chunkSize : Int) (total : Nat) (files : List (List Char)) :
    List (List Char) × Nat :=
  processFilesGo maxT chunkSize total files

/-- A whole file whose content alone exceeds a finite budget is pre-skipped
at a zero running total: processing a scan that starts with such a file is
the same as processing the remaining files. -/
theorem preSkip_first_file (maxT chunkSize : Int) (c : List Char) (rest : List (List Char))
    (h1 : 0 < maxT) (h2 : maxT < (c.length : Int)) :
    processFiles maxT chunkSize 0 (c :: rest) = processFiles maxT chunkSize 0 rest := by
  by_cases hb : pyIsBlankL c
  · simp [processFiles, processFilesGo, hb]
  · have hcheck : budgetSkipCheck maxT 0 c.length = true := by
      simp only [budgetSkipCheck, Bool.and_eq_true, decide_eq_true_eq]
      refine ⟨⟨h1, ?_⟩, h1⟩
      simpa using h2
    simp [processFiles, processFilesGo, hb, hcheck]

/-- C1 counterexample: with budget 100 and a single file whose content is 180
characters (three chunks of 60 at chunk size 60), the number of chunks sent is
not two (the whole file is pre-skipped, so it is zero); moreover, with chunk
size 200000 a single 150-character file — whose sole chunk alone exceeds the
budget — has its very first chunk skipped (nothing is sent), refuting that the
first chunk of a scan is never skipped for exceeding the budget on its own. -/
theorem claim_C1_counterexample :
    (processFiles 100 60 0 [List.replicate 180 'a']).1.length ≠ 2 ∧
    processFiles 100 200000 0 [List.replicate 150 'a'] = ([], 0) := by
  decide

/-- C1 (amended): with budget 100, chunk size 60 and a single 180-character
file, exactly zero chunks are sent — the whole file is pre-skipped before
chunking because its content alone exceeds the budget; in general, a scan
whose single file's content exceeds a finite budget sends no chunks even
though no prior send has occurred. -/
theorem claim_C1_amended :
    processFiles 100 60 0 [List.replicate 180 'a'] = ([], 0) ∧
    ∀ (maxT chunkSize : Int) (c : List Char), 0 < maxT → maxT < (c.length : Int) →
      processFiles maxT chunkSize 0 [c] = ([], 0) := by
  refine ⟨by decide, ?_⟩
  intro maxT chunkSize c h1 h2
  rw [preSkip_first_file maxT chunkSize c [] h1 h2]
  rfl

/-- Witness for C1 (amended) at budget 300, chunk size 60, one file of 301
characters. -/
theorem claim_C1_amended_witness :
    processFiles 300 60 0 [List.replicate 301 'a'] = ([], 0) :=
  claim_C1_amended.2 300 60 (List.replicate 301 'a') (by decide) (by decide)

/-- C2 counterexample: the pre-file budget check (line 495) fires at a running
total of zero for a 150-character file under budget 100, and consequently the
very first file of such a scan is skipped whole: nothing is sent. -/
theorem claim_C2_counterexample :
    budgetSkipCheck 100 0 150 = true ∧
    processFiles 100 60 0 [List.replicate 150 'a'] = ([], 0) := by
  decide

/-- C2 (amended): the whole-file budget pre-skip is not asymmetric — it
applies as soon as the finite budget would be pushed past while the running
total is still below it, including at a running total of zero; hence the very
first file of a scan is skipped whole whenever its content length alone
exceeds a finite budget, and the scan proceeds with the remaining files. -/
theorem claim_C2_amended (maxT chunkSize : Int) (c : List Char)
    (rest : List (List Char)) (h1 : 0 < maxT) (h2 : maxT < (c.length : Int)) :
    processFiles maxT chunkSize 0 (c :: rest) = processFiles maxT chunkSize 0 rest :=
  preSkip_first_file maxT chunkSize c rest h1 h2

/-- Witness for C2 (amended) at budget 100, chunk size 60, first file of 150
characters followed by a one-character file. -/
theorem claim_C2_amended_witness :
    processFiles 100 60 0 [List.replicate 150 'a', ['b']] =
      processFiles 100 60 0 [['b']] :=
  claim_C2_amended 100 60 (List.replicate 150 'a') [['b']] (by decide) (by decide)

theorem dot_append_ne (s : String) : ("." ++ s) ≠ "" := by
  intro h
  have h2 := congrArg String.length h
  simp at h2
  exact absurd h2.1 (by decide)

theorem mem_pyNormalize_ne_empty {exts : List String} {s : String}
    (h : s ∈ pyNormalizeExtensions exts) : s ≠ "" := by
  have h2 := (List.mem_filter.mp h).2
  simpa using h2

/-- The extension-normalization rule in the words of the spec (strip leading
dots and surrounding whitespace, lowercase, prefix a single dot, drop empty
tokens), for comparison with `pyNormalizeExtensions` transcribed from the
source. -/
def specCleanToken (e : String) : String :=
  pyLower (String.mk ((stripEnds pyIsSpace e.toList).dropWhile (fun c => c == '.')))

/-- Spec-side normalization: drop tokens whose cleaned form is empty, and
prefix the cleaned form of each remaining token with a single dot. -/
def specNormalizeExtensions (exts : List String) : List String :=
  (exts.filter (fun e => specCleanToken e != "")).map (fun e => "." ++ specCleanToken e)

/-- C5 counterexample: the source's `_normalize_extensions` does not strip
surrounding whitespace (Python `e.strip('.')` strips only dots): the token
`" py "` normalizes to `". py "`, not `".py"` as the claim's rule requires. -/
theorem claim_C5_counterexample :
    pyNormalizeExtensions [" py "] = [". py "] ∧
    specNormalizeExtensions [" py "] = [".py"] ∧
    pyNormalizeExtensions [" py "] ≠ specNormalizeExtensions [" py "] := by
  decide

theorem pyNormalize_eq (exts : List String) :
    pyNormalizeExtensions exts =
      (exts.filter (fun e => pyStrip e != "")).map
        (fun e => "." ++ pyLower (pyStripDots e)) := by
  induction exts with
  | nil => rfl
  | cons e rest ih =>
    by_cases h : pyStrip e = ""
    · have hmap : (if pyStrip e != "" then "." ++ pyLower (pyStripDots e) else "") = "" := by
        simp [h]
      simp only [pyNormalizeExtensions, List.map_cons, List.filter_cons, hmap] at *
      simp only [h, bne_self_eq_false, Bool.false_eq_true, if_false] at *
      simpa using ih
    · have hb : (pyStrip e != "") = true := by simpa using h
      have hne : ("." ++ pyLower (pyStripDots e) != "") = true := by
        simpa using dot_append_ne (pyLower (pyStripDots e))
      simp only [pyNormalizeExtensions, List.map_cons, List.filter_cons, hb,
        if_true, hne] at *
      simpa using ih

/-- C5 (amended): normalization maps each token `e` with a non-whitespace
character to `"." ++ lowercase(strip dots from BOTH ends of e)` — surrounding
whitespace is preserved, trailing dots are stripped as well as leading ones —
and drops whitespace-only tokens; every element of the result is nonempty. -/
theorem claim_C5_amended (exts : List String) :
    pyNormalizeExtensions exts =
      (exts.filter (fun e => pyStrip e != "")).map
        (fun e => "." ++ pyLower (pyStripDots e)) ∧
    (pyNormalizeExtensions exts).all (fun s => s != "") = true := by
  refine ⟨pyNormalize_eq exts, ?_⟩
  rw [List.all_eq_true]
  intro s hs
  simpa using mem_pyNormalize_ne_empty hs

/-!
`generate_report` (secrev_cli.py lines 338-392), modelled up to the list of
content parts that are concatenated into the two renderings.  The generation
timestamp is a parameter (`title`); report file writing is outside the model.
-/

/-- `"Error:" in finding_text` (line 363). -/
def hasErrMark (f : String) : Bool := strHasSub "Error:" f

/-- `"No critical security vulnerabilities identified" in finding_text`
(line 364). -/
def hasNoVulnMark (f : String) : Bool :=
  strHasSub "No critical security vulnerabilities identified" f

/-- The fixed disclaimer paragraph (lines 349-353). -/
def disclaimerText : String :=
  "This report was generated by an AI-assisted security review tool (Secrev). " ++
  "The findings are potential vulnerabilities and **require human verification " ++
  "and contextual understanding.** This tool is an aid and not a replacement " ++
  "for thorough manual code review, dedicated SAST/DAST tools, or professional " ++
  "security audits."

/-- Message appended when the findings list is empty (line 357). -/
def noFindingsMsg : String :=
  "No potential vulnerabilities were reported by the LLM across the scanned files.\n"

/-- Message appended when review occurred but nothing actionable was found
(line 373). -/
def reviewedMsg : String :=
  "The LLM reviewed the content but did not identify any critical security vulnerabilities.\n"

/-- Markdown parts contributed by one finding (lines 362-371). -/
def mdFindingParts (f : String) : List String :=
  if !hasErrMark f && !hasNoVulnMark f then ["---\n", f ++ "\n\n"]
  else if hasErrMark f then ["---\n", "**Analysis Issue:**\n" ++ f ++ "\n\n"]
  else []

/-- Plain-text parts contributed by one finding (lines 362-371). -/
def txtFindingParts (f : String) : List String :=
  if !hasErrMark f && !hasNoVulnMark f then
    ["------------------------\n" ++ f ++ "\n\n"]
  else if hasErrMark f then ["--- ANALYSIS ISSUE ---\n" ++ f ++ "\n\n"]
  else []

/-- `actionable_findings_count` after the loop (lines 361-366). -/
def countActionable (findings : List String) : Nat :=
  (findings.filter (fun f => !hasErrMark f && !hasNoVulnMark f)).length

/-- The trailing body parts shared by both renderings: the "no findings"
message for an empty list, else the conditional "reviewed, nothing critical"
message guarded by `actionable_findings_count == 0 and
any("Error:" not in f for f in findings if f)` (lines 356-375). -/
def reportTail (findings : List String) (perFinding : String → List String) : List String :=
  if findings.isEmpty then [noFindingsMsg]
  else
    (findings.map perFinding).flatten ++
      (if countActionable findings == 0 &&
          findings.any (fun f => !(f == "") && !hasErrMark f)
        then [reviewedMsg] else [])

/-- `md_content_parts` of `generate_report` (lines 354-375). -/
def mdReportParts (title : String) (findings : List String) : List String :=
  ["# " ++ title ++ "\n\n", "## Disclaimer\n", disclaimerText ++ "\n\n",
    "## Findings\n"] ++ reportTail findings mdFindingParts

/-- `txt_content_parts` of `generate_report` (lines 355-375). -/
def txtReportParts (title : String) (findings : List String) : List String :=
  [title ++ "\n\n", "Disclaimer:\n", disclaimerText ++ "\n\n", "Findings:\n",
    "====================\n\n"] ++ reportTail findings txtFindingParts

/-- C6 counterexample: a non-empty findings list consisting of one error
entry has zero actionable entries, yet neither rendering contains the
"reviewed, nothing critical" statement — the guard
`any("Error:" not in f for f in findings if f)` fails when every entry
carries the error marker. -/
theorem claim_C6_counterexample :
    (["Error: LLM failure"] : List String) ≠ [] ∧
    countActionable ["Error: LLM failure"] = 0 ∧
    reviewedMsg ∉ mdReportParts "T" ["Error: LLM failure"] ∧
    reviewedMsg ∉ txtReportParts "T" ["Error: LLM failure"] := by
  decide

/-- C6 (amended): for every non-empty findings list with zero actionable
entries that additionally contains at least one non-empty entry without the
error marker, both renderings contain the explicit statement that review
occurred but nothing critical was found; when every entry is an error entry
the statement is absent. -/
theorem claim_C6_amended (title : String) (findings : List String)
    (h1 : findings ≠ [])
    (h2 : countActionable findings = 0)
    (h3 : findings.any (fun f => !(f == "") && !hasErrMark f) = true) :
    reviewedMsg ∈ mdReportParts title findings ∧
    reviewedMsg ∈ txtReportParts title findings := by
  have hne : findings.isEmpty = false := by
    simpa [List.isEmpty_iff] using h1
  have hcond : (countActionable findings == 0 &&
      findings.any (fun f => !(f == "") && !hasErrMark f)) = true := by
    simp [h2, h3]
  constructor <;> simp [mdReportParts, txtReportParts, reportTail, hne, hcond]

/-- Witness for C6 (amended) on the one-entry findings list whose entry is
the designated "no vulnerabilities" response. -/
theorem claim_C6_amended_witness :
    reviewedMsg ∈ mdReportParts "T"
      ["No critical security vulnerabilities identified in this snippet."] ∧
    reviewedMsg ∈ txtReportParts "T"
      ["No critical security vulnerabilities identified in this snippet."] :=
  claim_C6_amended "T"
    ["No critical security vulnerabilities identified in this snippet."]
    (by decide) (by decide) (by decide)

/-!
Interactive review loop (`review_and_filter_files_interactive` and
`_rebuild_selectable_list`, secrev_cli.py lines 172-309).  Candidate files
are modelled by their file names (only the suffix is consulted by the loop);
an entry carries the 1-based display id and the `selected` flag; the session
state holds the immutable discovered list, the interactive exclusion set and
the current selectable entries.
-/

/-- One element of `selectable_files` (line 195): display id, file, flag. -/
structure Entry where
  id : Nat
  path : String
  selected : Bool
deriving DecidableEq

/-- The loop state: `initial_discovered_files` (never mutated),
`current_interactive_exclusions`, and `selectable_files`. -/
structure SessionState where
  allFiles : List String
  excl : List String
  entries : List Entry
deriving DecidableEq

/-- `_rebuild_selectable_list` (lines 172-198): filter the full discovered
list by the interactive exclusions (lowercased suffix test), then renumber
ids from 1 with every entry selected. -/
def rebuildSelectable (allFiles : List String) (excl : List String) : List Entry :=
  let filtered := allFiles.filter (fun p => !(excl.contains (pyLower (pySuffix p))))
  filtered.enum.map (fun pr => ⟨pr.1 + 1, pr.2, true⟩)

/-- The body of the `for ext in extensions_to_exclude` loop (lines 245-248):
add the extension when absent and bump `newly_excluded_count`. -/
def addStep (acc : List String × Nat) (e : String) : List String × Nat :=
  if acc.1.contains e then acc else (acc.1 ++ [e], acc.2 + 1)

/-- The `for ext in extensions_to_exclude` loop (lines 245-248): add each
extension not yet present and count the additions. -/
def addExclusions (excl : List String) (exts : List String) : List String × Nat :=
  exts.foldl addStep (excl, 0)

/-- The `exclude ...` command branch (lines 240-264): normalize the tokens,
grow the exclusion set, and rebuild the selectable list only when the set
actually grew. -/
def excludeStep (st : SessionState) (tokens : List String) : SessionState :=
  let exts := pyNormalizeExtensions tokens
  let res := addExclusions st.excl exts
  if res.2 > 0 then ⟨st.allFiles, res.1, rebuildSelectable st.allFiles res.1⟩
  else ⟨st.allFiles, res.1, st.entries⟩

/-- Digits possibly separated by single underscores (the tail of a Python
decimal integer literal as accepted by `int(...)`). -/
def digitsTailU : List Char → Bool
  | [] => true
  | ['_'] => false
  | '_' :: c :: rest => c.isDigit && digitsTailU rest
  | c :: rest => c.isDigit && digitsTailU rest

/-- Numeric value of a digit run, ignoring underscores. -/
def intOfDigits (cs : List Char) : Int :=
  cs.foldl (fun acc c => if c == '_' then acc else acc * 10 + ((c.toNat - 48 : Nat) : Int)) 0

/-- Python `int(s)` on a decimal token: optional surrounding whitespace,
optional sign, then digits (single underscores allowed between digits);
`none` models the `ValueError`. -/
def parsePyInt (s : String) : Option Int :=
  let cs := stripEnds pyIsSpace s.toList
  let sb : Int × List Char :=
    match cs with
    | '+' :: rest => (1, rest)
    | '-' :: rest => (-1, rest)
    | _ => (1, cs)
  match sb.2 with
  | [] => none
  | c :: rest =>
      if c.isDigit && digitsTailU rest then some (sb.1 * intOfDigits (c :: rest))
      else none

/-- `{int(x) for x in user_input.split()}` (line 289): all-or-nothing parse
of the tokens; a single bad token raises `ValueError` before any toggling. -/
def parseAll : List String → Option (List Int)
  | [] => some []
  | t :: ts =>
      match parsePyInt t, parseAll ts with
      | some v, some vs => some (v :: vs)
      | _, _ => none

/-- The toggle branch (lines 288-298): flip `selected` of each entry whose
id occurs among the parsed integers. -/
def toggleEntries (entries : List Entry) (ids : List Int) : List Entry :=
  entries.map (fun e =>
    if ids.contains ((e.id : Int)) then ⟨e.id, e.path, !e.selected⟩ else e)

/-- Result of handling one line of input in the `REVIEWING` state. -/
inductive LoopStep where
  | proceed (st : SessionState)
  | confirmed (st : SessionState)
  | cancelled
deriving DecidableEq

/-- One iteration of the command loop (lines 219-301):
`input("Your choice: ").strip().lower()` dispatched over the recognized
commands, falling through to integer toggling with `ValueError` recovery. -/
def inputStep (st : SessionState) (rawInput : String) : LoopStep :=
  let inp := pyLower (pyStrip rawInput)
  if inp = "" ∨ inp = "done" then .confirmed st
  else if inp = "cancel" then .cancelled
  else if pyStartsWith "exclude " inp then
    let parts := pySplit inp
    if parts.length > 1 then .proceed (excludeStep st parts.tail)
    else .proceed st
  else if inp = "list" then .proceed st
  else if inp = "all" then
    .proceed ⟨st.allFiles, st.excl, st.entries.map (fun e => ⟨e.id, e.path, true⟩)⟩
  else if inp = "none" then
    .proceed ⟨st.allFiles, st.excl, st.entries.map (fun e => ⟨e.id, e.path, false⟩)⟩
  else
    match parseAll (pySplit inp) with
    | some ids => .proceed ⟨st.allFiles, st.excl, toggleEntries st.entries ids⟩
    | none => .proceed st

/-- Session state on entering the loop (lines 210-212): no interactive
exclusions, selectable list built from the full discovered list. -/
def initSession (allFiles : List String) : SessionState :=
  ⟨allFiles, [], rebuildSelectable allFiles []⟩

/-- A sequence of `exclude` commands applied to a session. -/
def applyExcludes (st : SessionState) : List (List String) → SessionState
  | [] => st
  | c :: cs => applyExcludes (excludeStep st c) cs

theorem addStep_count_mono (exts : List String) : ∀ acc : List String × Nat,
    acc.2 ≤ (exts.foldl addStep acc).2 := by
  induction exts with
  | nil => intro acc; exact le_rfl
  | cons e rest ih =>
    intro acc
    simp only [List.foldl_cons]
    by_cases h : acc.1.contains e = true
    · have hstep : addStep acc e = acc := by unfold addStep; rw [if_pos h]
      rw [hstep]
      exact ih acc
    · have hstep : addStep acc e = (acc.1 ++ [e], acc.2 + 1) := by
        unfold addStep; rw [if_neg h]
      rw [hstep]
      have h2 : acc.2 + 1 ≤ (rest.foldl addStep (acc.1 ++ [e], acc.2 + 1)).2 :=
        ih (acc.1 ++ [e], acc.2 + 1)
      omega

theorem addStep_count_zero (exts : List String) : ∀ acc : List String × Nat,
    (exts.foldl addStep acc).2 = acc.2 → (exts.foldl addStep acc).1 = acc.1 := by
  induction exts with
  | nil => intro acc _; rfl
  | cons e rest ih =>
    intro acc hz
    simp only [List.foldl_cons] at hz ⊢
    by_cases h : acc.1.contains e = true
    · have hstep : addStep acc e = acc := by unfold addStep; rw [if_pos h]
      rw [hstep] at hz ⊢
      exact ih acc hz
    · have hstep : addStep acc e = (acc.1 ++ [e], acc.2 + 1) := by
        unfold addStep; rw [if_neg h]
      rw [hstep] at hz
      have hm : acc.2 + 1 ≤ (rest.foldl addStep (acc.1 ++ [e], acc.2 + 1)).2 :=
        addStep_count_mono rest (acc.1 ++ [e], acc.2 + 1)
      omega

theorem addStep_all_mem (exts : List String) : ∀ acc : List String × Nat,
    (∀ e ∈ exts, acc.1.contains e = true) → exts.foldl addStep acc = acc := by
  induction exts with
  | nil => intro acc _; rfl
  | cons e rest ih =>
    intro acc h
    have he : acc.1.contains e = true := h e (List.mem_cons_self e rest)
    have hstep : addStep acc e = acc := by unfold addStep; rw [if_pos he]
    simp only [List.foldl_cons, hstep]
    exact ih acc (fun x hx => h x (List.mem_cons_of_mem e hx))

theorem rebuild_map_path (l : List String) (ex : List String) :
    (rebuildSelectable l ex).map Entry.path =
      l.filter (fun p => !(ex.contains (pyLower (pySuffix p)))) := by
  simp only [rebuildSelectable, List.map_map]
  have hc : (Entry.path ∘ fun pr : Nat × String => (⟨pr.1 + 1, pr.2, true⟩ : Entry)) =
      Prod.snd := rfl
  rw [hc, List.enum_map_snd]

theorem rebuild_map_id (l : List String) (ex : List String) :
    (rebuildSelectable l ex).map Entry.id =
      List.range' 1 (rebuildSelectable l ex).length := by
  simp only [rebuildSelectable, List.map_map, List.length_map, List.enum_length]
  have hc : (Entry.id ∘ fun pr : Nat × String => (⟨pr.1 + 1, pr.2, true⟩ : Entry)) =
      (fun x => x + 1) ∘ Prod.fst := rfl
  rw [hc, ← List.map_map, List.enum_map_fst, List.range'_eq_map_range]
  exact List.map_congr_left (fun a _ => by omega)

theorem rebuild_selected (l : List String) (ex : List String) :
    ∀ e ∈ rebuildSelectable l ex, e.selected = true := by
  intro e he
  simp only [rebuildSelectable, List.mem_map] at he
  obtain ⟨pr, _, hpr⟩ := he
  rw [← hpr]

/-- C7: whenever an `exclude` command grows the interactive exclusion set,
the selectable list is rebuilt from the original full immutable candidate
list filtered by the complete exclusion set (never from the previously
filtered entries, which do not occur in the rebuild), with ids renumbered
1..k in order and every entry's selected flag reset to true; the stored
candidate list itself is unchanged. -/
theorem claim_C7_exclude_rebuild (st : SessionState) (tokens : List String)
    (hgrow : (excludeStep st tokens).excl ≠ st.excl) :
    (excludeStep st tokens).allFiles = st.allFiles ∧
    (excludeStep st tokens).entries =
      rebuildSelectable st.allFiles (excludeStep st tokens).excl ∧
    (excludeStep st tokens).entries.map Entry.path =
      st.allFiles.filter
        (fun p => !((excludeStep st tokens).excl.contains (pyLower (pySuffix p)))) ∧
    (excludeStep st tokens).entries.map Entry.id =
      List.range' 1 (excludeStep st tokens).entries.length ∧
    ∀ e ∈ (excludeStep st tokens).entries, e.selected = true := by
  by_cases hpos : (addExclusions st.excl (pyNormalizeExtensions tokens)).2 > 0
  · have hstep : excludeStep st tokens =
        ⟨st.allFiles, (addExclusions st.excl (pyNormalizeExtensions tokens)).1,
          rebuildSelectable st.allFiles
            (addExclusions st.excl (pyNormalizeExtensions tokens)).1⟩ := by
      simp [excludeStep, hpos]
    rw [hstep]
    exact ⟨rfl, rfl, rebuild_map_path _ _, rebuild_map_id _ _, rebuild_selected _ _⟩
  · exfalso
    have hz : (addExclusions st.excl (pyNormalizeExtensions tokens)).2 = 0 := by omega
    have h1 : (addExclusions st.excl (pyNormalizeExtensions tokens)).1 = st.excl :=
      addStep_count_zero (pyNormalizeExtensions tokens) (st.excl, 0) hz
    have hstep : (excludeStep st tokens).excl = st.excl := by
      simp [excludeStep, hpos, h1]
    exact hgrow hstep

/-- Witness for C7 on a two-file session excluding `.py`. -/
theorem claim_C7_exclude_rebuild_witness :
    (excludeStep (initSession ["a.py", "b.txt"]) ["py"]).allFiles =
      (initSession ["a.py", "b.txt"]).allFiles ∧
    (excludeStep (initSession ["a.py", "b.txt"]) ["py"]).entries =
      rebuildSelectable (initSession ["a.py", "b.txt"]).allFiles
        (excludeStep (initSession ["a.py", "b.txt"]) ["py"]).excl ∧
    (excludeStep (initSession ["a.py", "b.txt"]) ["py"]).entries.map Entry.path =
      (initSession ["a.py", "b.txt"]).allFiles.filter
        (fun p => !((excludeStep (initSession ["a.py", "b.txt"]) ["py"]).excl.contains
          (pyLower (pySuffix p)))) ∧
    (excludeStep (initSession ["a.py", "b.txt"]) ["py"]).entries.map Entry.id =
      List.range' 1 (excludeStep (initSession ["a.py", "b.txt"]) ["py"]).entries.length ∧
    ∀ e ∈ (excludeStep (initSession ["a.py", "b.txt"]) ["py"]).entries,
      e.selected = true :=
  claim_C7_exclude_rebuild (initSession ["a.py", "b.txt"]) ["py"] (by decide)

/-- C8: the `exclude` command is idempotent — when every normalized token is
already in the session's interactive exclusion set, the command leaves the
whole session state (exclusion set, entry ids and selected flags) unchanged
and performs no rebuild. -/
theorem claim_C8_exclude_idempotent (st : SessionState) (tokens : List String)
    (h : ∀ e ∈ pyNormalizeExtensions tokens, st.excl.contains e = true) :
    excludeStep st tokens = st := by
  have hfold : (pyNormalizeExtensions tokens).foldl addStep (st.excl, 0) =
      (st.excl, 0) := addStep_all_mem (pyNormalizeExtensions tokens) (st.excl, 0) h
  simp [excludeStep, addExclusions, hfold]

/-- Witness for C8: excluding `.py` a second time is a no-op. -/
theorem claim_C8_exclude_idempotent_witness :
    excludeStep (excludeStep (initSession ["a.py", "b.txt"]) ["py"]) ["py"] =
      excludeStep (initSession ["a.py", "b.txt"]) ["py"] :=
  claim_C8_exclude_idempotent (excludeStep (initSession ["a.py", "b.txt"]) ["py"])
    ["py"] (by decide)

theorem parseAll_none_of_mem {ts : List String} {t : String}
    (ht : t ∈ ts) (hp : parsePyInt t = none) : parseAll ts = none := by
  induction ts with
  | nil => cases ht
  | cons a rest ih =>
    rcases List.mem_cons.mp ht with h | h
    · subst h
      simp [parseAll, hp]
    · have hr := ih h
      simp only [parseAll, hr]
      cases parsePyInt a <;> rfl

/-- C9: in the `REVIEWING` state, an input line that matches no recognized
keyword and contains at least one token that is not an integer is rejected:
the loop continues with the session state (entries, flags and exclusion set)
completely unchanged — no integer token of the same rejected line is
toggled. -/
theorem claim_C9_invalid_input (st : SessionState) (rawInput : String)
    (h1 : ¬ (pyLower (pyStrip rawInput) = "" ∨ pyLower (pyStrip rawInput) = "done"))
    (h2 : pyLower (pyStrip rawInput) ≠ "cancel")
    (h3 : pyStartsWith "exclude " (pyLower (pyStrip rawInput)) = false)
    (h4 : pyLower (pyStrip rawInput) ≠ "list")
    (h5 : pyLower (pyStrip rawInput) ≠ "all")
    (h6 : pyLower (pyStrip rawInput) ≠ "none")
    (h7 : ∃ t ∈ pySplit (pyLower (pyStrip rawInput)), parsePyInt t = none) :
    inputStep st rawInput = .proceed st := by
  have hparse : parseAll (pySplit (pyLower (pyStrip rawInput))) = none := by
    obtain ⟨t, ht, hp⟩ := h7
    exact parseAll_none_of_mem ht hp
  have h3n : ¬ (pyStartsWith "exclude " (pyLower (pyStrip rawInput)) = true) := by
    simp [h3]
  simp only [inputStep]
  rw [if_neg h1, if_neg h2, if_neg h3n, if_neg h4, if_neg h5, if_neg h6, hparse]

/-- Witness for C9 on input `"2 x"` over a one-file session: the line is
rejected even though it also contains the integer token `2`. -/
theorem claim_C9_invalid_input_witness :
    inputStep (initSession ["a.py"]) "2 x" = .proceed (initSession ["a.py"]) :=
  claim_C9_invalid_input (initSession ["a.py"]) "2 x" (by decide) (by decide)
    (by decide) (by decide) (by decide) (by decide) ⟨"x", by decide, by decide⟩

theorem addStep_mem (exts : List String) : ∀ (acc : List String × Nat) (s : String),
    s ∈ (exts.foldl addStep acc).1 → s ∈ acc.1 ∨ s ∈ exts := by
  induction exts with
  | nil => intro acc s h; exact Or.inl h
  | cons e rest ih =>
    intro acc s h
    simp only [List.foldl_cons] at h
    by_cases hc : acc.1.contains e = true
    · have hstep : addStep acc e = acc := by unfold addStep; rw [if_pos hc]
      rw [hstep] at h
      rcases ih acc s h with h2 | h2
      · exact Or.inl h2
      · exact Or.inr (List.mem_cons_of_mem _ h2)
    · have hstep : addStep acc e = (acc.1 ++ [e], acc.2 + 1) := by
        unfold addStep; rw [if_neg hc]
      rw [hstep] at h
      rcases ih _ s h with h2 | h2
      · rcases List.mem_append.mp h2 with h3 | h3
        · exact Or.inl h3
        · rcases List.mem_singleton.mp h3 with h4
          exact Or.inr (h4 ▸ List.mem_cons_self e rest)
      · exact Or.inr (List.mem_cons_of_mem _ h2)

theorem excludeStep_keeps_no_suffix (fname : String) (st : SessionState)
    (tokens : List String) (hex : "" ∉ st.excl) (hall : fname ∈ st.allFiles)
    (hent : fname ∈ st.entries.map Entry.path) (hsuf : pySuffix fname = "") :
    "" ∉ (excludeStep st tokens).excl ∧
    fname ∈ (excludeStep st tokens).allFiles ∧
    fname ∈ (excludeStep st tokens).entries.map Entry.path := by
  have hexcl : ∀ s ∈ (addExclusions st.excl (pyNormalizeExtensions tokens)).1, s ≠ "" ∨ s ∈ st.excl := by
    intro s hs
    rcases addStep_mem (pyNormalizeExtensions tokens) (st.excl, 0) s hs with h | h
    · exact Or.inr h
    · exact Or.inl (mem_pyNormalize_ne_empty h)
  have hex2 : "" ∉ (addExclusions st.excl (pyNormalizeExtensions tokens)).1 := by
    intro hmem
    rcases hexcl "" hmem with h | h
    · exact h rfl
    · exact hex h
  have hcont : (addExclusions st.excl (pyNormalizeExtensions tokens)).1.contains
      (pyLower (pySuffix fname)) = false := by
    rw [hsuf]
    have hlow : pyLower "" = "" := rfl
    rw [hlow]
    simpa using hex2
  by_cases hpos : (addExclusions st.excl (pyNormalizeExtensions tokens)).2 > 0
  · have hstep : excludeStep st tokens =
        ⟨st.allFiles, (addExclusions st.excl (pyNormalizeExtensions tokens)).1,
          rebuildSelectable st.allFiles
            (addExclusions st.excl (pyNormalizeExtensions tokens)).1⟩ := by
      simp [excludeStep, hpos]
    rw [hstep]
    refine ⟨hex2, hall, ?_⟩
    rw [rebuild_map_path, List.mem_filter]
    refine ⟨hall, ?_⟩
    show (!(addExclusions st.excl (pyNormalizeExtensions tokens)).1.contains
      (pyLower (pySuffix fname))) = true
    rw [hcont]
    rfl
  · have hstep : excludeStep st tokens =
        ⟨st.allFiles, (addExclusions st.excl (pyNormalizeExtensions tokens)).1,
          st.entries⟩ := by
      simp [excludeStep, hpos]
    rw [hstep]
    exact ⟨hex2, hall, hent⟩

theorem applyExcludes_keeps_no_suffix (fname : String) (hsuf : pySuffix fname = "") :
    ∀ (cmds : List (List String)) (st : SessionState), "" ∉ st.excl →
    fname ∈ st.allFiles → fname ∈ st.entries.map Entry.path →
    fname ∈ (applyExcludes st cmds).entries.map Entry.path := by
  intro cmds
  induction cmds with
  | nil => intro st _ _ h3; exact h3
  | cons c rest ih =>
    intro st h1 h2 h3
    obtain ⟨g1, g2, g3⟩ := excludeStep_keeps_no_suffix fname st c h1 h2 h3 hsuf
    exact ih (excludeStep st c) g1 g2 g3

/-- C10: interactive exclusion matches only the lowercased file suffix, and
normalization never produces an empty extension; hence a candidate file with
no extension (empty suffix, such as a bare Dockerfile) is never removed from
the displayed list by any sequence of `exclude` commands in a session. -/
theorem claim_C10_no_suffix_survives (fname : String) (allFiles : List String)
    (cmds : List (List String)) (hsuf : pySuffix fname = "")
    (hmem : fname ∈ allFiles) :
    fname ∈ (applyExcludes (initSession allFiles) cmds).entries.map Entry.path := by
  apply applyExcludes_keeps_no_suffix fname hsuf cmds (initSession allFiles)
  · intro h
    simp [initSession] at h
  · exact hmem
  · rw [initSession]
    show fname ∈ (rebuildSelectable allFiles []).map Entry.path
    rw [rebuild_map_path]
    simpa using hmem

/-- Witness for C10: a bare `Dockerfile` survives excluding `.py` then
`.txt` and `.py` again. -/
theorem claim_C10_no_suffix_survives_witness :
    "Dockerfile" ∈ (applyExcludes (initSession ["Dockerfile", "a.py", "b.txt"])
      [["py"], ["txt", "py"]]).entries.map Entry.path :=
  claim_C10_no_suffix_survives "Dockerfile" ["Dockerfile", "a.py", "b.txt"]
    [["py"], ["txt", "py"]] (by decide) (by decide)

/-!
Discovery (`discover_code_files`, `is_excluded`, `_should_prune_dir`,
secrev_cli.py lines 20-42 and 91-168).  The filesystem below the scan root
is modelled as a rose tree of named directories with file-name lists;
`os.walk(..., topdown=True)` with in-place `dirnames` pruning becomes a
mutual recursion that skips pruned subdirectories before descending.
Discovered files are reported as (relative directory segments, file name).
-/

mutual
inductive FTree where
  | node (name : String) (subdirs : FForest) (files : List String)
inductive FForest where
  | nil
  | cons (t : FTree) (ts : FForest)
end

def FTree.dirName : FTree → String
  | .node n _ _ => n

/-- `DEFAULT_RELEVANT_EXTENSIONS` (lines 20-27). -/
def DEFAULT_RELEVANT_EXTENSIONS : List String :=
  [".py", ".js", ".ts", ".java", ".c", ".cpp", ".h", ".hpp", ".cs", ".go",
   ".rb", ".php", ".html", ".htm", ".css", ".scss", ".less", ".json", ".yaml",
   ".yml", ".xml", ".ini", ".toml", ".env", ".sh", ".bash", ".ps1", ".sql",
   ".md", ".txt", ".dockerfile", "dockerfile", ".tf", ".hcl"]

/-- `DEFAULT_EXCLUDED_EXTENSIONS` (lines 28-37). -/
def DEFAULT_EXCLUDED_EXTENSIONS : List String :=
  [".pyc", ".pyo", ".o", ".so", ".dll", ".exe", ".log", ".tmp", ".bak",
   ".swp", ".ds_store", ".jpg", ".jpeg", ".png", ".gif", ".bmp", ".tiff",
   ".webp", ".mp3", ".wav", ".aac", ".flac", ".ogg", ".mp4", ".mov", ".avi",
   ".mkv", ".webm", ".zip", ".tar", ".gz", ".rar", ".7z", ".pdf", ".doc",
   ".docx", ".xls", ".xlsx", ".ppt", ".pptx"]

/-- `DEFAULT_EXCLUDED_FILENAMES_PATTERNS` (lines 38-42). -/
def DEFAULT_EXCLUDED_FILENAMES_PATTERNS : List String :=
  [".gitignore", "license", "node_modules", "venv", ".venv", "dist", "build",
   "__pycache__", ".git", ".svn", ".hg", "package-lock.json", "yarn.lock",
   "composer.lock", "gemfile.lock", "pipfile.lock"]

/-- `_normalize_patterns` (lines 76-79):
`{p.lower().strip('/') for p in patterns if p.strip()}`. -/
def pyNormalizePatterns (patterns : List String) : List String :=
  (patterns.filter (fun p => pyStrip p != "")).map
    (fun p => String.mk (stripEnds (fun c => c == '/') (pyLower p).toList))

/-- `_should_prune_dir` (lines 91-93). -/
def shouldPruneDir (dirname : String) (excluded_patterns : List String) : Bool :=
  excluded_patterns.contains (pyLower dirname)

/-- `is_excluded` (lines 95-115): `segs` are the path segments of the file's
directory relative to the scan root (`relative_path_parts[:-1]`). -/
def is_excluded (fname : String) (segs : List String)
    (excluded_extensions excluded_filenames_patterns : List String) : Bool :=
  excluded_extensions.contains (pyLower (pySuffix fname)) ||
  excluded_filenames_patterns.contains (pyLower fname) ||
  segs.any (fun part => excluded_filenames_patterns.contains (pyLower part))

/-- The `is_relevant` decision (lines 151-163), with the three branches of
the source: explicit CLI include list, non-empty effective include list,
and the catch-all. -/
def is_relevant (fname : String) (cliNonempty : Bool)
    (current_include : List String) : Bool :=
  if cliNonempty then
    current_include.contains (pyLower (pySuffix fname)) ||
    current_include.contains (pyLower fname)
  else if !current_include.isEmpty then
    current_include.contains (pyLower (pySuffix fname)) ||
    current_include.contains (pyLower fname)
  else true

mutual

/-- The body of the `os.walk` loop (lines 142-165) at one directory:
collect this directory's passing files, then the pruned recursion. -/
def walkTree (cliNonempty : Bool) (incl exclExts exclPats : List String)
    (segs : List String) : FTree → List (List String × String)
  | .node _ subs files =>
      (files.filter (fun f =>
          !(is_excluded f segs exclExts exclPats) &&
          is_relevant f cliNonempty incl)).map (fun f => (segs, f)) ++
      walkForest cliNonempty incl exclExts exclPats segs subs

/-- Recursion over a directory's subdirectories:
`dirnames[:] = [d for d in dirnames if not _should_prune_dir(d, ...)]`
(line 144) prunes a subtree before it is descended into. -/
def walkForest (cliNonempty : Bool) (incl exclExts exclPats : List String)
    (segs : List String) : FForest → List (List String × String)
  | .nil => []
  | .cons t ts =>
      (if shouldPruneDir t.dirName exclPats then []
       else walkTree cliNonempty incl exclExts exclPats (segs ++ [t.dirName]) t) ++
      walkForest cliNonempty incl exclExts exclPats segs ts

end

/-- `discover_code_files` (lines 117-168) over the modelled tree: normalize
the CLI lists, fall back to the default include set when the CLI include
list is empty, extend the default exclusion sets, and walk from the root. -/
def discover_code_files (root : FTree)
    (include_ext_cli exclude_ext_cli exclude_files_cli : List String) :
    List (List String × String) :=
  let cli_include := pyNormalizeExtensions include_ext_cli
  let current_include :=
    if !cli_include.isEmpty then cli_include else DEFAULT_RELEVANT_EXTENSIONS
  let current_excl := DEFAULT_EXCLUDED_EXTENSIONS ++ pyNormalizeExtensions exclude_ext_cli
  let current_pats :=
    DEFAULT_EXCLUDED_FILENAMES_PATTERNS ++ pyNormalizePatterns exclude_files_cli
  walkTree (!cli_include.isEmpty) current_include current_excl current_pats [] root

mutual

theorem walkTree_segs_clean (cn : Bool) (incl eE eP segs : List String) :
    (t : FTree) →
    (walkTree cn incl eE eP segs t).all
      (fun pr => !(pr.1.any (fun part => eP.contains (pyLower part)))) = true
  | .node name subs files => by
    rw [walkTree, List.all_append, Bool.and_eq_true]
    constructor
    · rw [List.all_eq_true]
      intro pr hpr
      rw [List.mem_map] at hpr
      obtain ⟨f, hf, hpr2⟩ := hpr
      rw [List.mem_filter, Bool.and_eq_true] at hf
      have hexc : is_excluded f segs eE eP = false := by
        have h1 := hf.2.1
        rw [Bool.not_eq_true'] at h1
        exact h1
      rw [is_excluded] at hexc
      rcases Bool.or_eq_false_iff.mp hexc with ⟨_, h2⟩
      rw [← hpr2]
      simp only [h2]
      rfl
    · exact walkForest_segs_clean cn incl eE eP segs subs

theorem walkForest_segs_clean (cn : Bool) (incl eE eP segs : List String) :
    (ts : FForest) →
    (walkForest cn incl eE eP segs ts).all
      (fun pr => !(pr.1.any (fun part => eP.contains (pyLower part)))) = true
  | .nil => by rw [walkForest]; rfl
  | .cons t ts => by
    rw [walkForest, List.all_append, Bool.and_eq_true]
    constructor
    · by_cases hp : shouldPruneDir t.dirName eP = true
      · rw [if_pos hp]
        rfl
      · rw [if_neg hp]
        exact walkTree_segs_clean cn incl eE eP (segs ++ [t.dirName]) t
    · exact walkForest_segs_clean cn incl eE eP segs ts

end

/-- C4: for every modelled directory tree and every caller-supplied
extension and pattern lists, no file returned by `discover_code_files` has
any path segment between the scan root and the file (excluding the file's
own basename) whose lowercase form is among the effective exclusion patterns
(defaults plus normalized caller additions); excluded directories are pruned
in `walkForest` before being descended into. -/
theorem claim_C4_discover_segments (root : FTree)
    (include_ext_cli exclude_ext_cli exclude_files_cli : List String) :
    (discover_code_files root include_ext_cli exclude_ext_cli exclude_files_cli).all
      (fun pr => !(pr.1.any (fun part =>
        (DEFAULT_EXCLUDED_FILENAMES_PATTERNS ++
          pyNormalizePatterns exclude_files_cli).contains (pyLower part)))) = true := by
  rw [discover_code_files]
  exact walkTree_segs_clean _ _ _ _ [] root

end SecRev
